import Mathlib

/-!
Verification of the NHK Easy News backfill pipeline
(`src/nhk-scraper/backfill_articles.py`) against its specification.

The development shallowly embeds the script's pure logic:

* `parse_nhk_datetime` — timestamp normalization.  The script calls
  `datetime.strptime(date_str, "%Y-%m-%d %H:%M:%S")` and then subtracts
  `timedelta(hours=9)` (JST → UTC).  CPython's `strptime` is embedded
  faithfully at the level of the regexes it compiles for each directive:
  `%Y` is exactly four digits, while for `%m`, `%d`, `%H`, `%M`, `%S` the
  leading zero is optional (documented CPython behaviour), a literal space
  in the format matches a nonempty run of whitespace, the match must cover
  the whole input, and the resulting fields must form a valid calendar
  datetime (`%S` additionally admits 60/61 at the regex level, which the
  `datetime` constructor then rejects).  `\s` and `\d` are modelled at
  ASCII level.  A failed parse raises `ValueError`, which the script
  catches and turns into `None`; subtracting 9 hours from a datetime
  earlier than 0001-01-01 09:00:00 raises `OverflowError`, which the
  script does not catch — modelled as `Except.error ()`.
* the HTML body extraction helpers (`extract_text_without_ruby`,
  `extract_text_from_html`) over a DOM tree type, with BeautifulSoup's
  `get_text(strip=True)`, `find_all`, `decompose` and `str(element)`
  (minimal entity escaping) modelled on that type,
* the catalog-shape handling of `fetch_news_list`,
* the m3u8 URL construction, record truncation (`insert_article`), the
  duplicate check (`article_exists`) and the orchestrating loop of `main`,
  with the network and the HTML parser abstracted into an environment of
  oracles and the MySQL store modelled as the list of inserted rows
  (inserts become visible to later `article_exists` queries on the same
  connection; they are kept only if the final `conn.commit()` runs).
-/

/-! ### Characters and digits -/

/-- Numeric value of a digit character (`int` applied to a matched group). -/
def dval (c : Char) : Nat := c.toNat - 48

/-- ASCII model of the whitespace class `\s` used by CPython's
`_strptime` for a literal space in the format string. -/
def isPySpace (c : Char) : Bool :=
  c = ' ' || c = '\t' || c = '\n' || c = '\r' || c = '\x0b' || c = '\x0c'

/-! ### The regex fragments `_strptime` compiles for the directives used
by the script.  Each numeric directive is an ordered alternation whose
two-digit alternatives come first; a two-digit branch is taken exactly
when both characters are digits and the value satisfies the class below,
otherwise the one-digit branch applies. -/

/-- Regex `%m` two-digit alternatives `1[0-2]|0[1-9]`. -/
def monthTwo : Nat → Bool := fun v => decide (1 ≤ v) && decide (v ≤ 12)

/-- Regex `%m` one-digit alternative `[1-9]`. -/
def monthOne : Nat → Bool := fun v => decide (1 ≤ v)

/-- Regex `%d` two-digit alternatives `3[01]|[12]\d|0[1-9]`. -/
def dayTwo : Nat → Bool := fun v => decide (1 ≤ v) && decide (v ≤ 31)

/-- Regex `%d` one-digit alternative `[1-9]`. -/
def dayOne : Nat → Bool := fun v => decide (1 ≤ v)

/-- Regex `%H` two-digit alternatives `2[0-3]|[0-1]\d`. -/
def hourTwo : Nat → Bool := fun v => decide (v ≤ 23)

/-- Regex `%H` one-digit alternative `\d`. -/
def hourOne : Nat → Bool := fun _ => true

/-- Regex `%M` two-digit alternative `[0-5]\d`. -/
def minuteTwo : Nat → Bool := fun v => decide (v ≤ 59)

/-- Regex `%S` two-digit alternatives `6[0-1]|[0-5]\d` (leap seconds admitted
at the regex level). -/
def secondTwo : Nat → Bool := fun v => decide (v ≤ 61)

/-- Regex `%Y`: exactly four digits. -/
def p4 : List Char → Option (Nat × List Char)
  | a :: b :: c :: d :: r =>
      if a.isDigit && b.isDigit && c.isDigit && d.isDigit then
        some (((dval a * 10 + dval b) * 10 + dval c) * 10 + dval d, r)
      else none
  | _ => none

/-- A numeric directive with optional leading zero: the two-digit
alternatives (class `ok2`) are tried before the one-digit ones (`ok1`).
Committing to the two-digit branch is faithful to regex backtracking
because in the format at hand every numeric field is followed by a
non-digit literal or the end of input. -/
def p21 (ok2 ok1 : Nat → Bool) : List Char → Option (Nat × List Char)
  | a :: b :: r =>
      if a.isDigit then
        if b.isDigit && ok2 (dval a * 10 + dval b) then
          some (dval a * 10 + dval b, r)
        else if ok1 (dval a) then some (dval a, b :: r)
        else none
      else none
  | [a] => if a.isDigit && ok1 (dval a) then some (dval a, []) else none
  | [] => none

/-- A literal character of the format string. -/
def litc (c : Char) : List Char → Option (List Char)
  | x :: r => if x = c then some r else none
  | [] => none

/-- Greedy tail of `\s+`. -/
def skipWs : List Char → List Char
  | c :: r => if isPySpace c then skipWs r else c :: r
  | [] => []

/-- Regex `\s+`: at least one whitespace character, then greedily more. -/
def ws1 : List Char → Option (List Char)
  | c :: r => if isPySpace c then some (skipWs r) else none
  | [] => none

/-! ### Calendar arithmetic (`datetime`) -/

/-- Proleptic-Gregorian leap-year rule used by `datetime`. -/
def isLeapYear (y : Nat) : Bool :=
  y % 4 == 0 && (y % 100 != 0 || y % 400 == 0)

/-- Days in a month, as validated by the `datetime` constructor. -/
def daysInMonth (y m : Nat) : Nat :=
  if m = 2 then (if isLeapYear y then 29 else 28)
  else if m = 4 ∨ m = 6 ∨ m = 9 ∨ m = 11 then 30
  else 31

/-- A `datetime.datetime` value (no timezone attached, as in the script). -/
structure PyDateTime where
  year : Nat
  month : Nat
  day : Nat
  hour : Nat
  minute : Nat
  second : Nat
deriving DecidableEq, Inhabited

/-- Embedding of `datetime.strptime(s, "%Y-%m-%d %H:%M:%S")`:
match the directive chain over the whole input, then construct the
`datetime` (year ≥ 1, day within the month, second ≤ 59 — the regexes
already bound the other fields). `none` is `ValueError`. -/
def strptimeYmdHMS (l : List Char) : Option PyDateTime :=
  match p4 l with
  | none => none
  | some (y, l) =>
  match litc '-' l with
  | none => none
  | some l =>
  match p21 monthTwo monthOne l with
  | none => none
  | some (mo, l) =>
  match litc '-' l with
  | none => none
  | some l =>
  match p21 dayTwo dayOne l with
  | none => none
  | some (d, l) =>
  match ws1 l with
  | none => none
  | some l =>
  match p21 hourTwo hourOne l with
  | none => none
  | some (h, l) =>
  match litc ':' l with
  | none => none
  | some l =>
  match p21 minuteTwo hourOne l with
  | none => none
  | some (mi, l) =>
  match litc ':' l with
  | none => none
  | some l =>
  match p21 secondTwo hourOne l with
  | none => none
  | some (s, l) =>
  if l = [] then
    if 1 ≤ y ∧ d ≤ daysInMonth y mo ∧ s ≤ 59 then some ⟨y, mo, d, h, mi, s⟩
    else none
  else none

/-- Embedding of `dt - timedelta(hours=9)`: borrow through day, month and year;
`none` is the `OverflowError` raised below `datetime.min`. -/
def subHours9 (t : PyDateTime) : Option PyDateTime :=
  if 9 ≤ t.hour then some { t with hour := t.hour - 9 }
  else if 2 ≤ t.day then some { t with day := t.day - 1, hour := t.hour + 15 }
  else if 2 ≤ t.month then
    some { t with month := t.month - 1, day := daysInMonth t.year (t.month - 1),
                  hour := t.hour + 15 }
  else if 2 ≤ t.year then
    some { year := t.year - 1, month := 12, day := 31, hour := t.hour + 15,
           minute := t.minute, second := t.second }
  else none

/-- Embedding of `parse_nhk_datetime` (backfill_articles.py lines 195–207): empty
string → `None`; unparseable → `ValueError`, caught, `None`; otherwise
the parsed JST datetime shifted by the fixed −9 h offset.  The
`OverflowError` of the shift is not caught by the script and escapes
(`Except.error ()`). -/
def parse_nhk_datetime (s : String) : Except Unit (Option PyDateTime) :=
  if s = "" then .ok none
  else
    match strptimeYmdHMS s.data with
    | none => .ok none
    | some dt =>
      match subHours9 dt with
      | some u => .ok (some u)
      | none => .error ()

/-! ### The strict `YYYY-MM-DD HH:MM:SS` shape, written independently of
the parser: 19 characters, zero-padded digit fields in fixed positions,
separators `-`, space, `:`, and field values forming a valid calendar
datetime. -/

def inExactFormatB (s : String) : Bool :=
  match s.data with
  | [y1, y2, y3, y4, a1, m1, m2, a2, d1, d2, sp, h1, h2, b1, n1, n2, b2, s1, s2] =>
    y1.isDigit && y2.isDigit && y3.isDigit && y4.isDigit &&
    m1.isDigit && m2.isDigit && d1.isDigit && d2.isDigit &&
    h1.isDigit && h2.isDigit && n1.isDigit && n2.isDigit &&
    s1.isDigit && s2.isDigit &&
    (a1 == '-') && (a2 == '-') && (sp == ' ') && (b1 == ':') && (b2 == ':') &&
    (let y := ((dval y1 * 10 + dval y2) * 10 + dval y3) * 10 + dval y4
     let mo := dval m1 * 10 + dval m2
     let dd := dval d1 * 10 + dval d2
     let hh := dval h1 * 10 + dval h2
     let mm := dval n1 * 10 + dval n2
     let ss := dval s1 * 10 + dval s2
     decide (1 ≤ y) && decide (1 ≤ mo) && decide (mo ≤ 12) &&
     decide (1 ≤ dd) && decide (dd ≤ daysInMonth y mo) &&
     decide (hh ≤ 23) && decide (mm ≤ 59) && decide (ss ≤ 59))
  | _ => false

/-- Zero-padded rendering of a two-digit field. -/
def pad2 (n : Nat) : List Char := [Nat.digitChar (n / 10), Nat.digitChar (n % 10)]

/-- Zero-padded rendering of the four-digit year. -/
def pad4 (n : Nat) : List Char :=
  [Nat.digitChar (n / 1000), Nat.digitChar (n / 100 % 10),
   Nat.digitChar (n / 10 % 10), Nat.digitChar (n % 10)]

/-- The string `YYYY-MM-DD HH:MM:SS` for given field values. -/
def fmtYmdHMS (y mo d h mi s : Nat) : String :=
  ⟨pad4 y ++ '-' :: (pad2 mo ++ '-' :: (pad2 d ++ ' ' ::
    (pad2 h ++ ':' :: (pad2 mi ++ ':' :: pad2 s))))⟩

/-! ### Catalog shape handling (`fetch_news_list`, lines 89–103)

The HTTP exchange and JSON decoding are abstracted; the embedded
function is the shape normalization applied to the decoded JSON value:
a non-empty sequence is unwrapped to its first element, anything else is
returned as is. -/

/-- A decoded JSON value. -/
inductive JValue where
  | obj : List (String × JValue) → JValue
  | arr : List JValue → JValue
  | str : String → JValue
  | num : Int → JValue
  | bool : Bool → JValue
  | null : JValue

/-- The shape normalization of `fetch_news_list`: `isinstance(data, list)
and len(data) > 0` unwraps to `data[0]`, otherwise `data` itself. -/
def fetch_news_list (data : JValue) : JValue :=
  match data with
  | .arr (x :: _) => x
  | other => other

/-! ### Streaming audio URL (`parse_article_html`, lines 144–148) -/

/-- Python `str.split(sep)` on a character list. -/
def pySplit (sep : Char) : List Char → List (List Char)
  | [] => [[]]
  | x :: r =>
    if x = sep then [] :: pySplit sep r
    else
      match pySplit sep r with
      | s :: ss => (x :: s) :: ss
      | [] => [[x]]

/-- Embedding of `voice_uri.split('.')[0] if '.' in voice_uri else voice_uri`,
followed by substitution into the m3u8 template; empty (falsy)
`voice_uri` leaves the field as the empty string. -/
def m3u8UrlOf (voiceUri : String) : String :=
  if voiceUri = "" then ""
  else
    let baseName : List Char :=
      if voiceUri.data.contains '.' then (pySplit '.' voiceUri.data).headD []
      else voiceUri.data
    "https://vod-stream.nhk.jp/news/easy_audio/" ++ String.mk baseName ++ "/index.m3u8"

/-- The audio URL as the claim words it: the raw voice-resource
identifier itself substituted into the fixed template.  (Defined from
the spec's words, for comparison with the implementation.) -/
def specRawAudioUrl (voiceUri : String) : String :=
  "https://vod-stream.nhk.jp/news/easy_audio/" ++ voiceUri ++ "/index.m3u8"

/-! ### HTML DOM model

`BeautifulSoup(html, 'html.parser')` itself is outside the embedding;
documents and fragments enter the model as forests of parsed nodes, and
the soup operations the script uses (`find`, `find_all`, `decompose`,
`get_text(strip=True)`, attribute deletion, `str(element)` with the
minimal output formatter) are defined on the tree type.  The clone
`BeautifulSoup(str(element), 'html.parser')` round-trips the element
through serialization; on the DOM model this is the identity, so the
clone is the singleton forest `[element]`. -/

/-- A parsed HTML node: a text node, or an element with tag, attributes
and children. -/
inductive Node where
  | text : String → Node
  | elem : String → List (String × String) → List Node → Node
deriving Inhabited

/-- Python `str.strip()` (ASCII whitespace model, cf. `isPySpace`). -/
def pyStrip (l : List Char) : List Char :=
  ((l.dropWhile isPySpace).reverse.dropWhile isPySpace).reverse

mutual
/-- All text fragments of a node, in document order. -/
def textFragsN : Node → List String
  | .text s => [s]
  | .elem _ _ cs => textFragsL cs
/-- All text fragments of a forest, in document order. -/
def textFragsL : List Node → List String
  | [] => []
  | c :: r => textFragsN c ++ textFragsL r
end



/-- BeautifulSoup `get_text(strip=True)` over a forest: every text
fragment stripped of surrounding whitespace and concatenated with the
default empty separator. -/
def getTextStripL (l : List Node) : String :=
  ⟨(textFragsL l).flatMap (fun s => pyStrip s.data)⟩

/-- BeautifulSoup `get_text(strip=True)` of a single node. -/
def getTextStripN (n : Node) : String :=
  ⟨(textFragsN n).flatMap (fun s => pyStrip s.data)⟩

/-- Does `find_all('rt')` match this node? -/
def isRT : Node → Bool
  | .text _ => false
  | .elem t _ _ => t = "rt"

mutual
/-- Soup `decompose()` of every `rt` element strictly below a (non-`rt`)
node. -/
def stripRTN : Node → Node
  | .text s => .text s
  | .elem t a cs => .elem t a (stripRTL cs)
/-- Removal of every `rt`-rooted tree from a forest, recursively. -/
def stripRTL : List Node → List Node
  | [] => []
  | c :: r => (if isRT c then [] else [stripRTN c]) ++ stripRTL r
end



mutual
/-- The `p` elements at or below a node (`find_all('p')`), document
order. -/
def pElemsN : Node → List Node
  | .text _ => []
  | .elem t a cs => (if t = "p" then [Node.elem t a cs] else []) ++ pElemsL cs
/-- The `p` elements of a forest, document order. -/
def pElemsL : List Node → List Node
  | [] => []
  | c :: r => pElemsN c ++ pElemsL r
end



/-- Embedding of `extract_text_without_ruby` (lines 165–180): clone the element,
decompose every `rt`, then take the non-empty stripped paragraph texts
joined by newlines, falling back to stripping all tags when the clone
has no paragraph elements. -/
def extract_text_without_ruby (element : Node) : String :=
  let clone := stripRTL [element]
  let paragraphs := pElemsL clone
  let lines := (paragraphs.map getTextStripN).filter (fun s => s != "")
  if paragraphs.isEmpty then getTextStripL clone
  else String.intercalate "\n" lines

/-- Embedding of `extract_text_from_html` (lines 183–192) applied to the parsed
fragment of its HTML-string argument: decompose every `rt`, then
`get_text(strip=True)`. -/
def extract_text_from_html_doc (doc : List Node) : String :=
  getTextStripL (stripRTL doc)

/-- The minimal output formatter of `str(element)` on text. -/
def escapeMin (l : List Char) : List Char :=
  l.flatMap fun c =>
    if c = '&' then "&amp;".data
    else if c = '<' then "&lt;".data
    else if c = '>' then "&gt;".data
    else [c]

/-- Attribute-value escaping (minimal formatter plus the quote). -/
def escapeAttr (l : List Char) : List Char :=
  l.flatMap fun c =>
    if c = '&' then "&amp;".data
    else if c = '<' then "&lt;".data
    else if c = '>' then "&gt;".data
    else if c = '"' then "&quot;".data
    else [c]

/-- Serialized attribute list. -/
def serAttrs (attrs : List (String × String)) : List Char :=
  attrs.flatMap fun kv =>
    ' ' :: (kv.1.data ++ '=' :: '"' :: (escapeAttr kv.2.data ++ ['"']))

mutual
/-- Serialization `str(element)`. -/
def serializeN : Node → List Char
  | .text s => escapeMin s.data
  | .elem t a cs =>
      ['<'] ++ t.data ++ serAttrs a ++ ['>'] ++ serializeL cs ++
        ['<', '/'] ++ t.data ++ ['>']
/-- Serialization of a forest. -/
def serializeL : List Node → List Char
  | [] => []
  | c :: r => serializeN c ++ serializeL r
end



mutual
/-- Search `soup.find(id=target)`: first element carrying the given `id`
attribute, document order. -/
def findByIdN (target : String) : Node → Option Node
  | .text _ => none
  | .elem t a cs =>
      if a.lookup "id" = some target then some (.elem t a cs)
      else findByIdL target cs
/-- Search `find(id=target)` over a forest. -/
def findByIdL (target : String) : List Node → Option Node
  | [] => none
  | c :: r =>
      match findByIdN target c with
      | some x => some x
      | none => findByIdL target r
end



/-- Delete `href` from an `a` element's attributes. -/
def stripHrefIfA (t : String) (a : List (String × String)) : List (String × String) :=
  if t = "a" then a.filter (fun kv => kv.1 != "href") else a

mutual
/-- Deletion `del link['href']` applied to every `a` element of a tree. -/
def delHrefN : Node → Node
  | .text s => .text s
  | .elem t a cs => .elem t (stripHrefIfA t a) (delHrefL cs)
/-- The same over a forest. -/
def delHrefL : List Node → List Node
  | [] => []
  | c :: r => delHrefN c :: delHrefL r
end



/-- Embedding of `for link in body_element.find_all('a'): del link['href']`:
`find_all` searches descendants only, so the root's own attributes are
untouched. -/
def removeHrefs : Node → Node
  | .text s => .text s
  | .elem t a cs => .elem t a (delHrefL cs)

mutual
/-- Text fragments lying under `rt` (ruby-text) elements. -/
def rtTextsN : Node → List String
  | .text _ => []
  | .elem t _ cs => if t = "rt" then textFragsL cs else rtTextsL cs
/-- The same over a forest. -/
def rtTextsL : List Node → List String
  | [] => []
  | c :: r => rtTextsN c ++ rtTextsL r
end



/-- The list `l` occurs contiguously inside `m`. -/
def appearsIn (l m : List Char) : Prop := ∃ u v, m = u ++ l ++ v









/-! ### Article metadata, records and the orchestrator (`main`) -/

/-- A per-article entry of the date-indexed catalog (`article_data`);
`dict.get(key, '')` is modelled by total string fields. -/
structure ArticleMeta where
  news_id : String
  title : String
  title_with_ruby : String
  outline_with_ruby : String
  news_prearranged_time : String
  news_easy_image_uri : String
  news_web_image_uri : String
  news_easy_voice_uri : String
deriving DecidableEq, Inhabited

/-- The record assembled by `parse_article_html` (lines 150–162). -/
structure ArticleRecord where
  news_id : String
  title : String
  title_with_ruby : String
  outline : String
  outline_with_ruby : String
  url : String
  body : String
  body_without_html : String
  image_url : String
  m3u8_url : String
  published_at_utc : Option PyDateTime
deriving DecidableEq, Inhabited

/-- Substitution `NHK_ARTICLE_URL_TEMPLATE.format(news_id=news_id)`. -/
def articleUrl (newsId : String) : String :=
  "https://news.web.nhk/news/easy/" ++ newsId ++ "/" ++ newsId ++ ".html"

/-- The outside world of one run: HTTP statuses, fetched documents and
the HTML parser, as deterministic oracles. -/
structure Env where
  authStatus : Nat
  catalogStatus : Nat
  pageStatus : String → Nat
  pageDoc : String → List Node
  parseFragment : String → List Node

/-- Embedding of `extract_text_from_html` (lines 183–192): empty-string short-cut,
then parse the fragment, decompose `rt`, `get_text(strip=True)`. -/
def extract_text_from_html (env : Env) (html : String) : String :=
  if html = "" then "" else extract_text_from_html_doc (env.parseFragment html)

/-- Embedding of `extract_text_without_ruby` on a forest (the reparsed clone is a
document whose roots are searched by `find_all` as well). -/
def extract_text_without_ruby_doc (doc : List Node) : String :=
  let clone := stripRTL doc
  let paragraphs := pElemsL clone
  let lines := (paragraphs.map getTextStripN).filter (fun s => s != "")
  if paragraphs.isEmpty then getTextStripL clone
  else String.intercalate "\n" lines

/-- Embedding of `parse_article_html` (lines 106–162): non-success page status or a
missing `js-article-body` container yield `None` (`.ok none`, a
per-article skip); otherwise hrefs are deleted, the annotated body is
serialized, the ruby-free text and outline are extracted and the record
is assembled.  `.error ()` is the uncaught `OverflowError` escaping from
`parse_nhk_datetime`. -/
def parse_article_html (env : Env) (news_id : String) (article_data : ArticleMeta) :
    Except Unit (Option ArticleRecord) :=
  if env.pageStatus news_id ≠ 200 then .ok none
  else
    match findByIdL "js-article-body" (env.pageDoc news_id) with
    | none => .ok none
    | some body_element =>
      let body_element := removeHrefs body_element
      let body_html := String.mk (serializeN body_element)
      let body_text := extract_text_without_ruby body_element
      let outline := extract_text_from_html env article_data.outline_with_ruby
      match parse_nhk_datetime article_data.news_prearranged_time with
      | .error e => .error e
      | .ok published_at =>
        .ok (some
          { news_id := news_id
            title := article_data.title
            title_with_ruby := article_data.title_with_ruby
            outline := outline
            outline_with_ruby := article_data.outline_with_ruby
            url := articleUrl news_id
            body := body_html
            body_without_html := body_text
            image_url :=
              if article_data.news_easy_image_uri ≠ "" then
                article_data.news_easy_image_uri
              else article_data.news_web_image_uri
            m3u8_url := m3u8UrlOf article_data.news_easy_voice_uri
            published_at_utc := published_at })

/-- Embedding of `article_exists` (lines 210–213):
`SELECT 1 FROM news WHERE news_id = %s LIMIT 1`. -/
def article_exists (store : List ArticleRecord) (news_id : String) : Bool :=
  store.any (fun r => r.news_id == news_id)

/-- The silent length truncations of `insert_article` (lines 216–238). -/
def truncateRecord (a : ArticleRecord) : ArticleRecord :=
  { a with
    title := if a.title ≠ "" then a.title.take 50 else ""
    title_with_ruby := if a.title_with_ruby ≠ "" then a.title_with_ruby.take 500 else ""
    outline := if a.outline ≠ "" then a.outline.take 1000 else ""
    url := if a.url ≠ "" then a.url.take 200 else ""
    image_url := if a.image_url ≠ "" then a.image_url.take 200 else ""
    m3u8_url := if a.m3u8_url ≠ "" then a.m3u8_url.take 200 else "" }

/-- Operations issued against the MySQL connection. -/
inductive DbOp where
  | connect
  | existsCheck (news_id : String)
  | insert (news_id : String)
  | commit
  | close
deriving DecidableEq

/-- The mutable state of the per-article loop (lines 290–326). -/
structure LoopState where
  total : Nat
  new : Nat
  skipped : Nat
  failed : Nat
  store : List ArticleRecord
  ops : List DbOp
deriving DecidableEq

/-- One iteration of the inner loop (lines 300–326): count the article;
without `--dry-run`, query existence first and skip positives;
otherwise fetch and parse; a `None` parse counts as failed; a parsed
article is counted as new and, without `--dry-run`, inserted (the
uncommitted row is visible to later existence checks on the same
connection).  An escaping exception aborts the loop carrying the state
reached so far. -/
def loopStep (env : Env) (dryRun : Bool) (st : LoopState) (article_data : ArticleMeta) :
    Except LoopState LoopState :=
  let news_id := article_data.news_id
  let total' := st.total + 1
  let ops' := if dryRun then st.ops else st.ops ++ [DbOp.existsCheck news_id]
  if dryRun = false ∧ article_exists st.store news_id = true then
    .ok { st with total := total', ops := ops', skipped := st.skipped + 1 }
  else
    match parse_article_html env news_id article_data with
    | .error _ => .error { st with total := total', ops := ops' }
    | .ok none => .ok { st with total := total', ops := ops', failed := st.failed + 1 }
    | .ok (some parsed) =>
      if dryRun then
        .ok { st with total := total', ops := ops', new := st.new + 1 }
      else
        .ok { st with total := total', new := st.new + 1,
                      store := st.store ++ [truncateRecord parsed],
                      ops := ops' ++ [DbOp.insert news_id] }

/-- The `for article_data in articles` loops, flattened over the dates
in range (the per-date work is only logging). -/
def runLoop (env : Env) (dryRun : Bool) (st : LoopState) :
    List ArticleMeta → Except LoopState LoopState
  | [] => .ok st
  | m :: r =>
    match loopStep env dryRun st m with
    | .error e => .error e
    | .ok st' => runLoop env dryRun st' r

/-- Code-point lexicographic order on character lists (Python string
comparison). -/
def lexLe : List Char → List Char → Bool
  | [], _ => true
  | _ :: _, [] => false
  | a :: as, b :: bs => if a = b then lexLe as bs else decide (a < b)

/-- Python `<=` on strings. -/
def strLe (a b : String) : Bool := lexLe a.data b.data

/-- Insertion into a sorted list. -/
def insertSorted (x : String) : List String → List String
  | [] => [x]
  | y :: r => if strLe x y then x :: y :: r else y :: insertSorted x r

/-- Python `sorted` on catalog keys (ascending). -/
def sortStrings : List String → List String
  | [] => []
  | x :: r => insertSorted x (sortStrings r)

/-- Embedding of `target_dates` (lines 274–275): sorted catalog keys filtered to
`start_date <= d <= end_date`. -/
def targetDates (catalog : List (String × List ArticleMeta))
    (startDate endDate : String) : List String :=
  (sortStrings (catalog.map Prod.fst)).filter
    (fun d => strLe startDate d && strLe d endDate)

/-- The article metadata of the dates in range, in processing order. -/
def metasInRange (catalog : List (String × List ArticleMeta))
    (startDate endDate : String) : List ArticleMeta :=
  (targetDates catalog startDate endDate).flatMap
    (fun d => (catalog.lookup d).getD [])

/-- The four counters printed by the final summary (lines 336–343). -/
structure Summary where
  total : Nat
  new : Nat
  skipped : Nat
  failed : Nat
deriving DecidableEq

/-- How one `main()` invocation ends. -/
inductive RunOutcome where
  | fatal
  | noDates
  | crashed
  | completed (summary : Summary)
deriving DecidableEq

/-- Result of one run: the outcome, the store contents after the run
(rows are durable only if `conn.commit()` ran) and the log of
operations issued against the database connection. -/
structure RunResult where
  outcome : RunOutcome
  finalStore : List ArticleRecord
  dbOps : List DbOp
deriving DecidableEq

/-- Embedding of `main` (lines 241–343) for an explicit date range.  A failed
authentication or catalog fetch raises before the loop (`.fatal`); an
empty date range returns early (line 283) — before the database is even
connected; otherwise the loop runs over every article of every date in
range, the transaction is committed and the summary printed.  A loop
crash reaches the `finally` without `conn.commit()`, so its uncommitted
inserts are discarded. -/
def run (env : Env) (catalog : List (String × List ArticleMeta))
    (startDate endDate : String) (dryRun : Bool)
    (store : List ArticleRecord) : RunResult :=
  if env.authStatus ≠ 200 then ⟨.fatal, store, []⟩
  else if env.catalogStatus ≠ 200 then ⟨.fatal, store, []⟩
  else if (targetDates catalog startDate endDate).isEmpty then ⟨.noDates, store, []⟩
  else
    let init : LoopState := ⟨0, 0, 0, 0, store, if dryRun then [] else [.connect]⟩
    match runLoop env dryRun init (metasInRange catalog startDate endDate) with
    | .error st => ⟨.crashed, store, st.ops ++ if dryRun then [] else [.close]⟩
    | .ok st =>
      ⟨.completed ⟨st.total, st.new, st.skipped, st.failed⟩,
       if dryRun then store else st.store,
       st.ops ++ if dryRun then [] else [.commit, .close]⟩

/-- Process exit status per outcome: an early `return` from `main` and a
completed run both end the process with status 0; an uncaught exception
ends it with status 1. -/
def exitCode : RunOutcome → Nat
  | .fatal => 1
  | .crashed => 1
  | .noDates => 0
  | .completed _ => 0

/-- The printed summary, when one is printed. -/
def summaryOf : RunOutcome → Option Summary
  | .completed s => some s
  | _ => none

/-- Does the fetch-and-parse of this article succeed? -/
def parsedOk (env : Env) (m : ArticleMeta) : Bool :=
  match parse_article_html env m.news_id m with
  | .ok (some _) => true
  | _ => false

/-- Does the fetch-and-parse of this article return `None` (the
recoverable per-article skip)? -/
def parsedNone (env : Env) (m : ArticleMeta) : Bool :=
  match parse_article_html env m.news_id m with
  | .ok none => true
  | _ => false

/-- The counters `(total, new, failed)` of a dry-run loop, which reads
neither the store nor the connection: `.error` marks an escaping
exception. -/
def dryRunLoopResult (env : Env) :
    List ArticleMeta → Nat → Nat → Nat → Except (Nat × Nat × Nat) (Nat × Nat × Nat)
  | [], t, n, f => .ok (t, n, f)
  | m :: r, t, n, f =>
    match parse_article_html env m.news_id m with
    | .error _ => .error (t + 1, n, f)
    | .ok none => dryRunLoopResult env r (t + 1) n (f + 1)
    | .ok (some _) => dryRunLoopResult env r (t + 1) (n + 1) f

/-- The store part of a loop result (kept by a commit, discarded by a
crash). -/
def resultStore : Except LoopState LoopState → List ArticleRecord
  | .ok st => st.store
  | .error st => st.store

/-- The identifier column of the store. -/
def storeIds (s : List ArticleRecord) : List String := s.map (fun r => r.news_id)

/-- The paragraph join exactly as the claim words it: the stripped text
of each paragraph of the container, joined by newlines.  (Defined from
the spec's words, for comparison with the implementation.) -/
def specParagraphJoin (element : Node) : String :=
  String.intercalate "\n" ((pElemsN element).map getTextStripN)

/-- A concrete article body containing ruby annotation, for witnesses. -/
def rubyBody : Node :=
  Node.elem "div" [("id", "js-article-body")]
    [Node.elem "p" []
      [Node.text "日本",
       Node.elem "ruby" [] [Node.text "漢", Node.elem "rt" [] [Node.text "かん"]]]]

/-- A concrete environment whose every article page is `rubyBody`. -/
def envC5 : Env :=
  { authStatus := 200, catalogStatus := 200, pageStatus := fun _ => 200,
    pageDoc := fun _ => [rubyBody], parseFragment := fun _ => [] }

/-- A concrete catalog entry. -/
def metaC5 : ArticleMeta :=
  { news_id := "k10012345", title := "t", title_with_ruby := "tr",
    outline_with_ruby := "", news_prearranged_time := "2025-12-03 19:30:00",
    news_easy_image_uri := "", news_web_image_uri := "",
    news_easy_voice_uri := "" }

/-- The record `parse_article_html` produces for `metaC5` in `envC5`. -/
def recC5 : ArticleRecord :=
  match parse_article_html envC5 "k10012345" metaC5 with
  | .ok (some r) => r
  | _ => default

/-- An environment with a working upstream and no article pages. -/
def envNoDates : Env :=
  { authStatus := 200, catalogStatus := 200, pageStatus := fun _ => 200,
    pageDoc := fun _ => [], parseFragment := fun _ => [] }

/-- A catalog with one in-range date carrying one article. -/
def catC1 : List (String × List ArticleMeta) := [("2025-06-01", [metaC5])]

/-- An environment whose article pages all return HTTP 404. -/
def env404 : Env :=
  { authStatus := 200, catalogStatus := 200, pageStatus := fun _ => 404,
    pageDoc := fun _ => [], parseFragment := fun _ => [] }

/-! ## Theorems -/

/-! ### Evaluation lemmas for the parser on zero-padded input -/

theorem digitChar_isDigit (k : Nat) (hk : k < 10) : (Nat.digitChar k).isDigit = true := by
  interval_cases k <;> rfl

theorem dval_digitChar (k : Nat) (hk : k < 10) : dval (Nat.digitChar k) = k := by
  interval_cases k <;> rfl

theorem digitChar_not_space (k : Nat) (hk : k < 10) : isPySpace (Nat.digitChar k) = false := by
  interval_cases k <;> rfl

theorem daysInMonth_le_31 (y m : Nat) : daysInMonth y m ≤ 31 := by
  unfold daysInMonth
  split <;> [split <;> omega; split <;> omega]

theorem p4_cons (y : Nat) (hy : y ≤ 9999) (r : List Char) :
    p4 (Nat.digitChar (y / 1000) :: Nat.digitChar (y / 100 % 10) ::
        Nat.digitChar (y / 10 % 10) :: Nat.digitChar (y % 10) :: r) = some (y, r) := by
  have h1 : y / 1000 < 10 := by omega
  have h2 : y / 100 % 10 < 10 := Nat.mod_lt _ (by norm_num)
  have h3 : y / 10 % 10 < 10 := Nat.mod_lt _ (by norm_num)
  have h4 : y % 10 < 10 := Nat.mod_lt _ (by norm_num)
  simp only [p4, digitChar_isDigit _ h1, digitChar_isDigit _ h2, digitChar_isDigit _ h3,
    digitChar_isDigit _ h4, Bool.and_self, if_pos, dval_digitChar _ h1, dval_digitChar _ h2,
    dval_digitChar _ h3, dval_digitChar _ h4, Option.some.injEq, Prod.mk.injEq, and_true]
  omega

theorem p21_two (ok2 ok1 : Nat → Bool) (v : Nat) (hv : v ≤ 99) (hok : ok2 v = true)
    (r : List Char) :
    p21 ok2 ok1 (Nat.digitChar (v / 10) :: Nat.digitChar (v % 10) :: r) = some (v, r) := by
  have h1 : v / 10 < 10 := by omega
  have h2 : v % 10 < 10 := Nat.mod_lt _ (by norm_num)
  have hv' : dval (Nat.digitChar (v / 10)) * 10 + dval (Nat.digitChar (v % 10)) = v := by
    rw [dval_digitChar _ h1, dval_digitChar _ h2]; omega
  simp only [p21, digitChar_isDigit _ h1, digitChar_isDigit _ h2, hv', hok, Bool.and_self,
    if_pos, if_true]

theorem litc_cons (c : Char) (r : List Char) : litc c (c :: r) = some r := by
  simp [litc]

theorem ws1_space (x : Char) (hx : isPySpace x = false) (r : List Char) :
    ws1 (' ' :: x :: r) = some (x :: r) := by
  have hsp : isPySpace ' ' = true := rfl
  simp [ws1, skipWs, hx, hsp]

/-- The parser accepts a zero-padded rendering of any valid calendar
datetime and returns exactly its fields. -/
theorem strptime_fmt (y mo d h mi s : Nat) (hy1 : 1 ≤ y) (hy2 : y ≤ 9999)
    (hm1 : 1 ≤ mo) (hm2 : mo ≤ 12) (hd1 : 1 ≤ d) (hd2 : d ≤ daysInMonth y mo)
    (hh : h ≤ 23) (hmi : mi ≤ 59) (hs : s ≤ 59) :
    strptimeYmdHMS (fmtYmdHMS y mo d h mi s).data = some ⟨y, mo, d, h, mi, s⟩ := by
  have hd31 : d ≤ 31 := le_trans hd2 (daysInMonth_le_31 y mo)
  have hdata : (fmtYmdHMS y mo d h mi s).data =
      Nat.digitChar (y / 1000) :: Nat.digitChar (y / 100 % 10) ::
      Nat.digitChar (y / 10 % 10) :: Nat.digitChar (y % 10) :: '-' ::
      Nat.digitChar (mo / 10) :: Nat.digitChar (mo % 10) :: '-' ::
      Nat.digitChar (d / 10) :: Nat.digitChar (d % 10) :: ' ' ::
      Nat.digitChar (h / 10) :: Nat.digitChar (h % 10) :: ':' ::
      Nat.digitChar (mi / 10) :: Nat.digitChar (mi % 10) :: ':' ::
      Nat.digitChar (s / 10) :: Nat.digitChar (s % 10) :: [] := by
    simp [fmtYmdHMS, pad4, pad2]
  rw [hdata]
  simp only [strptimeYmdHMS, p4_cons y hy2, litc_cons,
    p21_two monthTwo monthOne mo (by omega) (by simp [monthTwo, hm1, hm2]),
    p21_two dayTwo dayOne d (by omega) (by simp [dayTwo, hd1, hd31]),
    ws1_space (Nat.digitChar (h / 10)) (digitChar_not_space (h / 10) (by omega)),
    p21_two hourTwo hourOne h (by omega) (by simp [hourTwo, hh]),
    p21_two minuteTwo hourOne mi (by omega) (by simp [minuteTwo, hmi]),
    p21_two secondTwo hourOne s (by omega) (by simp [secondTwo]; omega)]
  simp [hy1, hd2, hs]

/-- The 9-hour shift succeeds whenever the datetime is not within the
first nine hours of the minimum representable date. -/
theorem subHours9_isSome (t : PyDateTime) (h1 : 1 ≤ t.year) (hmo : 1 ≤ t.month)
    (hda : 1 ≤ t.day)
    (hmin : ¬(t.year = 1 ∧ t.month = 1 ∧ t.day = 1 ∧ t.hour < 9)) :
    ∃ u, subHours9 t = some u := by
  unfold subHours9
  split
  · exact ⟨_, rfl⟩
  split
  · exact ⟨_, rfl⟩
  split
  · exact ⟨_, rfl⟩
  split
  · exact ⟨_, rfl⟩
  · exfalso; omega

theorem fmt_ne_empty (y mo d h mi s : Nat) : fmtYmdHMS y mo d h mi s ≠ "" := by
  intro hcon
  have : (fmtYmdHMS y mo d h mi s).data = ([] : List Char) := by rw [hcon]
  simp [fmtYmdHMS, pad4] at this

/-- C3 (amended).  Timestamp normalization: every string in the exact
`YYYY-MM-DD HH:MM:SS` shape denoting a valid calendar datetime (and not
within nine hours of the minimum representable datetime, where the
uncaught `OverflowError` would escape) is interpreted as source-local
time and shifted by the fixed −9 h offset; every string the platform's
format parser rejects — in particular the empty string — yields a null
timestamp with no exception.  [The original claim's converse direction
fails because the parser also accepts non-zero-padded variants of the
format; see the counterexample.] -/
theorem parse_nhk_datetime_spec (y mo d h mi s : Nat) (str : String)
    (hy1 : 1 ≤ y) (hy2 : y ≤ 9999) (hm1 : 1 ≤ mo) (hm2 : mo ≤ 12)
    (hd1 : 1 ≤ d) (hd2 : d ≤ daysInMonth y mo) (hh : h ≤ 23) (hmi : mi ≤ 59)
    (hs : s ≤ 59) (hmin : ¬(y = 1 ∧ mo = 1 ∧ d = 1 ∧ h < 9)) :
    (∃ u, subHours9 ⟨y, mo, d, h, mi, s⟩ = some u ∧
        parse_nhk_datetime (fmtYmdHMS y mo d h mi s) = .ok (some u)) ∧
    (strptimeYmdHMS str.data = none → parse_nhk_datetime str = .ok none) := by
  constructor
  · obtain ⟨u, hu⟩ := subHours9_isSome ⟨y, mo, d, h, mi, s⟩ hy1 hm1 hd1 hmin
    refine ⟨u, hu, ?_⟩
    unfold parse_nhk_datetime
    rw [if_neg (fmt_ne_empty y mo d h mi s)]
    simp only [strptime_fmt y mo d h mi s hy1 hy2 hm1 hm2 hd1 hd2 hh hmi hs, hu]
  · intro hnone
    unfold parse_nhk_datetime
    by_cases he : str = ""
    · simp [he]
    · rw [if_neg he, hnone]

/-- C3 witness: the spec's own example `"2025-12-03 19:30:00"` is
stored as `2025-12-03T10:30:00`, and a malformed string yields null. -/
theorem parse_nhk_datetime_spec_witness :
    parse_nhk_datetime "2025-12-03 19:30:00" =
      .ok (some ⟨2025, 12, 3, 10, 30, 0⟩) ∧
    parse_nhk_datetime "not a timestamp" = .ok none := by
  have H := parse_nhk_datetime_spec 2025 12 3 19 30 0 "not a timestamp"
    (by norm_num) (by norm_num) (by norm_num) (by norm_num) (by norm_num)
    (by decide) (by norm_num) (by norm_num) (by norm_num) (by omega)
  obtain ⟨⟨u, hu, hp⟩, hn⟩ := H
  constructor
  · have hfmt : fmtYmdHMS 2025 12 3 19 30 0 = "2025-12-03 19:30:00" := rfl
    have hu' : subHours9 ⟨2025, 12, 3, 19, 30, 0⟩ =
        some ⟨2025, 12, 3, 10, 30, 0⟩ := rfl
    have h1 : (⟨2025, 12, 3, 10, 30, 0⟩ : PyDateTime) = u :=
      Option.some.inj (hu'.symm.trans hu)
    rw [hfmt] at hp
    rw [hp, ← h1]
  · exact hn rfl

/-- C3 counterexample: `"2025-1-3 19:30:00"` is not in the exact
`YYYY-MM-DD HH:MM:SS` format (month and day are not zero-padded), yet
`parse_nhk_datetime` does not yield a null timestamp for it: CPython's
`strptime` treats leading zeros as optional, so the claim's
"every input string not in that format yields null" direction is false. -/
theorem parse_nhk_datetime_unpadded_cex :
    inExactFormatB "2025-1-3 19:30:00" = false ∧
    parse_nhk_datetime "2025-1-3 19:30:00" =
      .ok (some ⟨2025, 1, 3, 10, 30, 0⟩) := by
  exact ⟨rfl, rfl⟩

/-- C4: for every date-keyed mapping, the catalog-parsing step accepts
both upstream shapes — the bare mapping and a one-element sequence
wrapping it — and produces identical parsed results (the bare mapping)
for the two. -/
theorem fetch_news_list_both_shapes (entries : List (String × JValue)) :
    fetch_news_list (.arr [.obj entries]) = fetch_news_list (.obj entries) ∧
    fetch_news_list (.obj entries) = .obj entries :=
  ⟨rfl, rfl⟩

theorem pySplit_ne_nil (sep : Char) (l : List Char) : pySplit sep l ≠ [] := by
  cases l with
  | nil => simp [pySplit]
  | cons x r =>
      simp only [pySplit]
      split
      · simp
      · split <;> simp

theorem pySplit_headD_takeWhile (sep : Char) (l : List Char) :
    (pySplit sep l).headD [] = l.takeWhile (fun c => c != sep) := by
  induction l with
  | nil => rfl
  | cons x r ih =>
      by_cases hx : x = sep
      · simp [pySplit, hx]
      · simp only [pySplit, if_neg hx]
        cases h : pySplit sep r with
        | nil => exact absurd h (pySplit_ne_nil sep r)
        | cons s ss =>
            rw [h] at ih
            have hb : (x != sep) = true := by simp [bne, hx]
            simp only [List.headD] at ih
            simp [List.takeWhile, hb, List.headD, ih]

/-- C9 (amended): for every non-empty raw voice-resource identifier the
stored streaming audio URL substitutes the identifier's stem — the
portion before the first `'.'`, or the whole identifier when it contains
no dot — into the fixed URL template; for an absent or empty identifier
the field is the empty string.  [The original claim said the raw
identifier itself is substituted; the code substitutes the stem.] -/
theorem m3u8_url_spec (voiceUri : String) :
    (voiceUri ≠ "" → m3u8UrlOf voiceUri =
      "https://vod-stream.nhk.jp/news/easy_audio/" ++
        String.mk (voiceUri.data.takeWhile (fun c => c != '.')) ++ "/index.m3u8") ∧
    (voiceUri = "" → m3u8UrlOf voiceUri = "") := by
  constructor
  · intro hne
    unfold m3u8UrlOf
    rw [if_neg hne]
    by_cases hdot : voiceUri.data.contains '.'
    · simp only [hdot, if_true, pySplit_headD_takeWhile]
    · rw [if_neg (by simpa using hdot)]
      have hmem : ∀ c ∈ voiceUri.data, (c != '.') = true := by
        intro c hc
        have : c ≠ '.' := by
          intro hcon
          rw [hcon] at hc
          exact hdot (List.elem_iff.mpr hc)
        simp [bne, this]
      rw [List.takeWhile_eq_self_iff.mpr hmem]
  · intro he
    simp [m3u8UrlOf, he]

/-- C9 witness: a dot-free identifier is substituted whole; the empty
identifier yields an empty field. -/
theorem m3u8_url_spec_witness :
    m3u8UrlOf "voice123" =
      "https://vod-stream.nhk.jp/news/easy_audio/voice123/index.m3u8" ∧
    m3u8UrlOf "" = "" := by
  refine ⟨?_, (m3u8_url_spec "").2 rfl⟩
  rw [(m3u8_url_spec "voice123").1 (by decide)]
  rfl

/-- C9 counterexample: for the identifier `"ne2025120312345.mp4"` the
implementation substitutes the stem `"ne2025120312345"`, not the raw
identifier, so the stored URL differs from the raw identifier
substituted into the fixed template as the claim states it. -/
theorem m3u8_url_raw_cex :
    m3u8UrlOf "ne2025120312345.mp4" =
      "https://vod-stream.nhk.jp/news/easy_audio/ne2025120312345/index.m3u8" ∧
    m3u8UrlOf "ne2025120312345.mp4" ≠ specRawAudioUrl "ne2025120312345.mp4" := by
  exact ⟨by decide, by decide⟩

theorem appearsIn_extend {s t : List Char} (u v : List Char)
    (h : appearsIn s t) : appearsIn s (u ++ t ++ v) := by
  obtain ⟨a, b, rfl⟩ := h
  exact ⟨u ++ a, b ++ v, by simp⟩

theorem appearsIn_self (l : List Char) : appearsIn l l := ⟨[], [], by simp⟩

theorem isRT_stripRTN (c : Node) : isRT (stripRTN c) = isRT c := by
  cases c <;> rfl

mutual
theorem stripRTN_idem : ∀ n : Node, stripRTN (stripRTN n) = stripRTN n
  | .text _ => rfl
  | .elem t a cs => by simp [stripRTN, stripRTL_idem cs]
theorem stripRTL_idem : ∀ l : List Node, stripRTL (stripRTL l) = stripRTL l
  | [] => rfl
  | c :: r => by
      by_cases h : isRT c = true
      · simp [stripRTL, h, stripRTL_idem r]
      · have h' : isRT c = false := by simpa using h
        simp [stripRTL, h', isRT_stripRTN, stripRTN_idem c, stripRTL_idem r]
end

mutual
theorem textFrag_in_serializeN : ∀ (n : Node) (s : String), s ∈ textFragsN n →
    appearsIn (escapeMin s.data) (serializeN n)
  | .text t, s, h => by
      simp only [textFragsN, List.mem_singleton] at h
      subst h
      exact appearsIn_self _
  | .elem t a cs, s, h => by
      have hin := textFrag_in_serializeL cs s (by simpa [textFragsN] using h)
      have := appearsIn_extend (['<'] ++ t.data ++ serAttrs a ++ ['>'])
        (['<', '/'] ++ t.data ++ ['>']) hin
      simpa [serializeN] using this
theorem textFrag_in_serializeL : ∀ (l : List Node) (s : String), s ∈ textFragsL l →
    appearsIn (escapeMin s.data) (serializeL l)
  | [], s, h => by simp [textFragsL] at h
  | c :: r, s, h => by
      rcases List.mem_append.mp (by simpa [textFragsL] using h) with hc | hr
      · have := appearsIn_extend [] (serializeL r) (textFrag_in_serializeN c s hc)
        simpa [serializeL] using this
      · have := appearsIn_extend (serializeN c) [] (textFrag_in_serializeL r s hr)
        simpa [serializeL] using this
end

mutual
theorem rtTexts_sub_textFragsN : ∀ (n : Node) (s : String), s ∈ rtTextsN n →
    s ∈ textFragsN n
  | .text t, s, h => by simp [rtTextsN] at h
  | .elem t a cs, s, h => by
      by_cases ht : t = "rt"
      · have h' : s ∈ textFragsL cs := by simpa [rtTextsN, ht] using h
        simpa [textFragsN] using h'
      · have h' : s ∈ rtTextsL cs := by simpa [rtTextsN, ht] using h
        have h2 := rtTexts_sub_textFragsL cs s h'
        simpa [textFragsN] using h2
theorem rtTexts_sub_textFragsL : ∀ (l : List Node) (s : String), s ∈ rtTextsL l →
    s ∈ textFragsL l
  | [], s, h => by simp [rtTextsL] at h
  | c :: r, s, h => by
      rcases List.mem_append.mp (by simpa [rtTextsL] using h) with hc | hr
      · simp [textFragsL, rtTexts_sub_textFragsN c s hc]
      · simp [textFragsL, rtTexts_sub_textFragsL r s hr]
end

mutual
theorem textFrags_delHrefN : ∀ n : Node, textFragsN (delHrefN n) = textFragsN n
  | .text _ => rfl
  | .elem t a cs => by simp [delHrefN, textFragsN, textFrags_delHrefL cs]
theorem textFrags_delHrefL : ∀ l : List Node, textFragsL (delHrefL l) = textFragsL l
  | [] => rfl
  | c :: r => by
      simp [delHrefL, textFragsL, textFrags_delHrefN c, textFrags_delHrefL r]
end

theorem textFrags_removeHrefs (n : Node) : textFragsN (removeHrefs n) = textFragsN n := by
  cases n with
  | text s => rfl
  | elem t a cs => simp [removeHrefs, textFragsN, textFrags_delHrefL cs]

theorem loopStep_dry (env : Env) (st : LoopState) (m : ArticleMeta) :
    loopStep env true st m =
      match parse_article_html env m.news_id m with
      | .error _ => .error { st with total := st.total + 1 }
      | .ok none => .ok { st with total := st.total + 1, failed := st.failed + 1 }
      | .ok (some _) => .ok { st with total := st.total + 1, new := st.new + 1 } := by
  cases h : parse_article_html env m.news_id m with
  | error e => simp [loopStep, h]
  | ok o => cases o <;> simp [loopStep, h]

theorem runLoop_dry_char (env : Env) :
    ∀ (l : List ArticleMeta) (st : LoopState),
    runLoop env true st l =
      match dryRunLoopResult env l st.total st.new st.failed with
      | .ok (t, n, f) =>
          .ok { total := t, new := n, skipped := st.skipped, failed := f,
                store := st.store, ops := st.ops }
      | .error (t, n, f) =>
          .error { total := t, new := n, skipped := st.skipped, failed := f,
                   store := st.store, ops := st.ops }
  | [], st => by simp [runLoop, dryRunLoopResult]
  | m :: r, st => by
      rw [runLoop, loopStep_dry]
      cases h : parse_article_html env m.news_id m with
      | error e => simp [dryRunLoopResult, h]
      | ok o =>
          cases o with
          | none =>
              have ih := runLoop_dry_char env r
                { st with total := st.total + 1, failed := st.failed + 1 }
              simp only [dryRunLoopResult, h]
              simpa using ih
          | some p =>
              have ih := runLoop_dry_char env r
                { st with total := st.total + 1, new := st.new + 1 }
              simp only [dryRunLoopResult, h]
              simpa using ih

theorem dryRunLoopResult_ok (env : Env) :
    ∀ (l : List ArticleMeta) (t n f t' n' f' : Nat),
    dryRunLoopResult env l t n f = .ok (t', n', f') →
    t' = t + l.length ∧ n' = n + l.countP (parsedOk env) ∧
      f' = f + l.countP (parsedNone env)
  | [], t, n, f, t', n', f' => by
      intro h
      simp [dryRunLoopResult] at h
      simp [h.1, h.2.1, h.2.2]
  | m :: r, t, n, f, t', n', f' => by
      intro h
      rw [dryRunLoopResult] at h
      cases hp : parse_article_html env m.news_id m with
      | error e => rw [hp] at h; exact absurd h (by simp)
      | ok o =>
          cases o with
          | none =>
              rw [hp] at h
              have := dryRunLoopResult_ok env r (t + 1) n (f + 1) t' n' f' h
              have hok : parsedOk env m = false := by simp [parsedOk, hp]
              have hno : parsedNone env m = true := by simp [parsedNone, hp]
              simp [List.countP_cons, hok, hno]
              omega
          | some p =>
              rw [hp] at h
              have := dryRunLoopResult_ok env r (t + 1) (n + 1) f t' n' f' h
              have hok : parsedOk env m = true := by simp [parsedOk, hp]
              have hno : parsedNone env m = false := by simp [parsedNone, hp]
              simp [List.countP_cons, hok, hno]
              omega

theorem parse_article_html_news_id (env : Env) (id : String) (meta : ArticleMeta)
    (rec : ArticleRecord) (h : parse_article_html env id meta = .ok (some rec)) :
    rec.news_id = id := by
  unfold parse_article_html at h
  by_cases hst : env.pageStatus id ≠ 200
  · rw [if_pos hst] at h; exact absurd h (by simp)
  · rw [if_neg hst] at h
    cases hf : findByIdL "js-article-body" (env.pageDoc id) with
    | none => rw [hf] at h; exact absurd h (by simp)
    | some b =>
        rw [hf] at h
        simp only at h
        cases hdt : parse_nhk_datetime meta.news_prearranged_time with
        | error e => rw [hdt] at h; exact absurd h (by simp)
        | ok p =>
            rw [hdt] at h
            have h2 := Option.some.inj (Except.ok.inj h)
            rw [← h2]

theorem loopStep_wet (env : Env) (st : LoopState) (m : ArticleMeta) :
    loopStep env false st m =
      if article_exists st.store m.news_id = true then
        .ok { st with total := st.total + 1, skipped := st.skipped + 1,
                      ops := st.ops ++ [DbOp.existsCheck m.news_id] }
      else
        match parse_article_html env m.news_id m with
        | .error _ =>
            .error { st with total := st.total + 1,
                             ops := st.ops ++ [DbOp.existsCheck m.news_id] }
        | .ok none =>
            .ok { st with total := st.total + 1, failed := st.failed + 1,
                          ops := st.ops ++ [DbOp.existsCheck m.news_id] }
        | .ok (some parsed) =>
            .ok { st with total := st.total + 1, new := st.new + 1,
                          store := st.store ++ [truncateRecord parsed],
                          ops := st.ops ++
                            [DbOp.existsCheck m.news_id, DbOp.insert m.news_id] } := by
  by_cases hex : article_exists st.store m.news_id = true
  · simp [loopStep, hex]
  · cases hp : parse_article_html env m.news_id m with
    | error e => simp [loopStep, hex, hp]
    | ok o => cases o <;> simp [loopStep, hex, hp]

theorem loopStep_ok_of_safe (env : Env) (dryRun : Bool) (st : LoopState)
    (m : ArticleMeta)
    (hne : parse_article_html env m.news_id m ≠ .error ()) :
    ∃ st', loopStep env dryRun st m = .ok st' ∧
      st'.total = st.total + 1 ∧
      st'.new + st'.skipped + st'.failed = st.new + st.skipped + st.failed + 1 := by
  cases dryRun with
  | true =>
      rw [loopStep_dry]
      cases hp : parse_article_html env m.news_id m with
      | error e => cases e; exact absurd hp hne
      | ok o =>
          cases o with
          | none => exact ⟨_, rfl, by simp, by simp; omega⟩
          | some p => exact ⟨_, rfl, by simp, by simp; omega⟩
  | false =>
      rw [loopStep_wet]
      by_cases hex : article_exists st.store m.news_id = true
      · rw [if_pos hex]
        exact ⟨_, rfl, by simp, by simp; omega⟩
      · rw [if_neg hex]
        cases hp : parse_article_html env m.news_id m with
        | error e => cases e; exact absurd hp hne
        | ok o =>
            cases o with
            | none => exact ⟨_, rfl, by simp, by simp; omega⟩
            | some p => exact ⟨_, rfl, by simp, by simp; omega⟩

theorem runLoop_completes (env : Env) (dryRun : Bool) :
    ∀ (l : List ArticleMeta) (st : LoopState),
    (∀ m ∈ l, parse_article_html env m.news_id m ≠ .error ()) →
    ∃ st', runLoop env dryRun st l = .ok st' ∧
      st'.total = st.total + l.length ∧
      st'.new + st'.skipped + st'.failed = st.new + st.skipped + st.failed + l.length
  | [], st => fun _ => ⟨st, rfl, by simp, by simp⟩
  | m :: r, st => by
      intro hsafe
      obtain ⟨st1, hstep, ht1, hc1⟩ :=
        loopStep_ok_of_safe env dryRun st m (hsafe m (by simp))
      obtain ⟨st', hloop, ht2, hc2⟩ :=
        runLoop_completes env dryRun r st1 (fun x hx => hsafe x (by simp [hx]))
      refine ⟨st', ?_, ?_, ?_⟩
      · simp only [runLoop, hstep]
        exact hloop
      · rw [ht2, ht1, List.length_cons]; omega
      · rw [hc2, hc1, List.length_cons]; omega

theorem truncateRecord_news_id (a : ArticleRecord) :
    (truncateRecord a).news_id = a.news_id := rfl

theorem article_exists_append (s t : List ArticleRecord) (id : String) :
    article_exists (s ++ t) id = (article_exists s id || article_exists t id) := by
  simp [article_exists]

theorem article_exists_iff (s : List ArticleRecord) (id : String) :
    article_exists s id = true ↔ id ∈ storeIds s := by
  simp [article_exists, storeIds, List.any_eq_true]

theorem loopStep_store_extends (env : Env) (dryRun : Bool) (st : LoopState)
    (m : ArticleMeta) :
    ∃ tail, resultStore (loopStep env dryRun st m) = st.store ++ tail ∧
      ∀ r ∈ tail, article_exists st.store r.news_id = false := by
  cases dryRun with
  | true =>
      rw [loopStep_dry]
      cases hp : parse_article_html env m.news_id m with
      | error e => exact ⟨[], by simp [resultStore], by simp⟩
      | ok o => cases o <;> exact ⟨[], by simp [resultStore], by simp⟩
  | false =>
      rw [loopStep_wet]
      by_cases hex : article_exists st.store m.news_id = true
      · rw [if_pos hex]
        exact ⟨[], by simp [resultStore], by simp⟩
      · rw [if_neg hex]
        cases hp : parse_article_html env m.news_id m with
        | error e => exact ⟨[], by simp [resultStore], by simp⟩
        | ok o =>
            cases o with
            | none => exact ⟨[], by simp [resultStore], by simp⟩
            | some p =>
                refine ⟨[truncateRecord p], by simp [resultStore], ?_⟩
                intro r hr
                rw [List.mem_singleton] at hr
                subst hr
                rw [truncateRecord_news_id,
                  parse_article_html_news_id env m.news_id m p hp]
                simpa using hex

theorem runLoop_store_extends (env : Env) (dryRun : Bool) :
    ∀ (l : List ArticleMeta) (st : LoopState),
    ∃ tail, resultStore (runLoop env dryRun st l) = st.store ++ tail ∧
      ∀ r ∈ tail, article_exists st.store r.news_id = false
  | [], st => ⟨[], by simp [runLoop, resultStore], by simp⟩
  | m :: r, st => by
      obtain ⟨t1, he1, hf1⟩ := loopStep_store_extends env dryRun st m
      cases hs : loopStep env dryRun st m with
      | error e =>
          rw [hs] at he1
          refine ⟨t1, ?_, hf1⟩
          simp only [runLoop, hs]
          exact he1
      | ok st1 =>
          rw [hs] at he1
          obtain ⟨t2, he2, hf2⟩ := runLoop_store_extends env dryRun r st1
          refine ⟨t1 ++ t2, ?_, ?_⟩
          · simp only [runLoop, hs]
            rw [he2]
            simp only [resultStore] at he1
            rw [he1, List.append_assoc]
          · intro x hx
            rcases List.mem_append.mp hx with h1 | h2
            · exact hf1 x h1
            · have := hf2 x h2
              simp only [resultStore] at he1
              rw [he1, article_exists_append] at this
              simpa using (Bool.or_eq_false_iff.mp this).1

theorem runLoop_exists_mono (env : Env) (dryRun : Bool) (l : List ArticleMeta)
    (st st' : LoopState) (h : runLoop env dryRun st l = .ok st') (id : String)
    (hex : article_exists st.store id = true) :
    article_exists st'.store id = true := by
  obtain ⟨tail, he, _⟩ := runLoop_store_extends env dryRun l st
  rw [h] at he
  simp only [resultStore] at he
  rw [he, article_exists_append, hex, Bool.true_or]

theorem loopStep_nodup (env : Env) (dryRun : Bool) (st : LoopState) (m : ArticleMeta)
    (h : (storeIds st.store).Nodup) :
    (storeIds (resultStore (loopStep env dryRun st m))).Nodup := by
  cases dryRun with
  | true =>
      rw [loopStep_dry]
      cases hp : parse_article_html env m.news_id m with
      | error e => simpa [resultStore] using h
      | ok o => cases o <;> simpa [resultStore] using h
  | false =>
      rw [loopStep_wet]
      by_cases hex : article_exists st.store m.news_id = true
      · rw [if_pos hex]; simpa [resultStore] using h
      · rw [if_neg hex]
        cases hp : parse_article_html env m.news_id m with
        | error e => simpa [resultStore] using h
        | ok o =>
            cases o with
            | none => simpa [resultStore] using h
            | some p =>
                simp only [resultStore]
                have hid : (truncateRecord p).news_id = m.news_id := by
                  rw [truncateRecord_news_id,
                    parse_article_html_news_id env m.news_id m p hp]
                have hnotin : m.news_id ∉ storeIds st.store := by
                  intro hc
                  exact hex ((article_exists_iff st.store m.news_id).mpr hc)
                have hmap : storeIds (st.store ++ [truncateRecord p]) =
                    storeIds st.store ++ [m.news_id] := by
                  simp [storeIds, hid]
                rw [hmap, List.nodup_append]
                refine ⟨h, by simp, ?_⟩
                intro x hx hmem
                rw [List.mem_singleton] at hmem
                subst hmem
                exact hnotin hx

theorem runLoop_nodup (env : Env) (dryRun : Bool) :
    ∀ (l : List ArticleMeta) (st : LoopState),
    (storeIds st.store).Nodup →
    (storeIds (resultStore (runLoop env dryRun st l))).Nodup
  | [], st => by intro h; simpa [runLoop, resultStore] using h
  | m :: r, st => by
      intro h
      have hstep := loopStep_nodup env dryRun st m h
      cases hs : loopStep env dryRun st m with
      | error e =>
          rw [hs] at hstep
          simpa [runLoop, hs, resultStore] using hstep
      | ok st1 =>
          rw [hs] at hstep
          have := runLoop_nodup env dryRun r st1 (by simpa [resultStore] using hstep)
          simpa [runLoop, hs] using this

theorem runLoop_covers (env : Env) :
    ∀ (l : List ArticleMeta) (st st' : LoopState),
    runLoop env false st l = .ok st' →
    ∀ m ∈ l, parse_article_html env m.news_id m ≠ .ok none →
    article_exists st'.store m.news_id = true
  | [], st, st' => by intro h m hm; simp at hm
  | m0 :: r, st, st' => by
      intro h m hm hne
      cases hs : loopStep env false st m0 with
      | error e =>
          rw [runLoop, hs] at h
          exact absurd h (by simp)
      | ok st1 =>
          simp only [runLoop, hs] at h
          rcases List.mem_cons.mp hm with hq | hm'
          · subst hq
            rw [loopStep_wet] at hs
            by_cases hex : article_exists st.store m.news_id = true
            · rw [if_pos hex] at hs
              have h1 : article_exists st1.store m.news_id = true := by
                have := Except.ok.inj hs
                rw [← this]
                simpa using hex
              exact runLoop_exists_mono env false r st1 st' h m.news_id h1
            · rw [if_neg hex] at hs
              cases hp : parse_article_html env m.news_id m with
              | error e => rw [hp] at hs; exact absurd hs (by simp)
              | ok o =>
                  cases o with
                  | none => exact absurd hp hne
                  | some p =>
                      rw [hp] at hs
                      have hst1 := Except.ok.inj hs
                      have h1 : article_exists st1.store m.news_id = true := by
                        rw [← hst1]
                        simp only [article_exists_append]
                        have : article_exists [truncateRecord p] m.news_id = true := by
                          simp [article_exists, truncateRecord_news_id,
                            parse_article_html_news_id env m.news_id m p hp]
                        rw [this, Bool.or_true]
                      exact runLoop_exists_mono env false r st1 st' h m.news_id h1
          · exact runLoop_covers env r st1 st' h m hm' hne

theorem runLoop_skips_all (env : Env) :
    ∀ (l : List ArticleMeta) (st : LoopState),
    (∀ m ∈ l, parse_article_html env m.news_id m ≠ .ok none →
      article_exists st.store m.news_id = true) →
    ∃ st', runLoop env false st l = .ok st' ∧ st'.store = st.store ∧ st'.new = st.new
  | [], st => fun _ => ⟨st, rfl, rfl, rfl⟩
  | m :: r, st => by
      intro hyp
      by_cases hex : article_exists st.store m.news_id = true
      · have hs : loopStep env false st m =
            .ok { st with total := st.total + 1, skipped := st.skipped + 1,
                          ops := st.ops ++ [DbOp.existsCheck m.news_id] } := by
          rw [loopStep_wet, if_pos hex]
        obtain ⟨st', h1, h2, h3⟩ := runLoop_skips_all env r
          { st with total := st.total + 1, skipped := st.skipped + 1,
                    ops := st.ops ++ [DbOp.existsCheck m.news_id] }
          (fun x hx hnx => by simpa using hyp x (by simp [hx]) hnx)
        refine ⟨st', ?_, by simpa using h2, by simpa using h3⟩
        simp only [runLoop, hs]
        exact h1
      · have hparse : parse_article_html env m.news_id m = .ok none := by
          by_contra hc
          exact hex (hyp m (by simp) hc)
        have hs : loopStep env false st m =
            .ok { st with total := st.total + 1, failed := st.failed + 1,
                          ops := st.ops ++ [DbOp.existsCheck m.news_id] } := by
          rw [loopStep_wet, if_neg hex, hparse]
        obtain ⟨st', h1, h2, h3⟩ := runLoop_skips_all env r
          { st with total := st.total + 1, failed := st.failed + 1,
                    ops := st.ops ++ [DbOp.existsCheck m.news_id] }
          (fun x hx hnx => by simpa using hyp x (by simp [hx]) hnx)
        refine ⟨st', ?_, by simpa using h2, by simpa using h3⟩
        simp only [runLoop, hs]
        exact h1

theorem runLoop_dry_char2 (env : Env) (l : List ArticleMeta)
    (t n sk f : Nat) (sto : List ArticleRecord) (ops : List DbOp) :
    runLoop env true ⟨t, n, sk, f, sto, ops⟩ l =
      match dryRunLoopResult env l t n f with
      | .ok (t', n', f') => .ok ⟨t', n', sk, f', sto, ops⟩
      | .error (t', n', f') => .error ⟨t', n', sk, f', sto, ops⟩ :=
  runLoop_dry_char env l ⟨t, n, sk, f, sto, ops⟩

theorem run_noDates_eq (env : Env) (catalog : List (String × List ArticleMeta))
    (startDate endDate : String) (dryRun : Bool) (store : List ArticleRecord)
    (hauth : env.authStatus = 200) (hcat : env.catalogStatus = 200)
    (hempty : targetDates catalog startDate endDate = []) :
    run env catalog startDate endDate dryRun store = ⟨.noDates, store, []⟩ := by
  unfold run
  rw [if_neg (by simp [hauth]), if_neg (by simp [hcat]),
    if_pos (by simp [hempty])]

theorem run_completes_of_safe (env : Env) (catalog : List (String × List ArticleMeta))
    (startDate endDate : String) (dryRun : Bool) (store : List ArticleRecord)
    (hauth : env.authStatus = 200) (hcat : env.catalogStatus = 200)
    (hne : targetDates catalog startDate endDate ≠ [])
    (hsafe : ∀ m ∈ metasInRange catalog startDate endDate,
      parse_article_html env m.news_id m ≠ .error ()) :
    ∃ st', runLoop env dryRun ⟨0, 0, 0, 0, store, if dryRun then [] else [DbOp.connect]⟩
        (metasInRange catalog startDate endDate) = .ok st' ∧
      run env catalog startDate endDate dryRun store =
        ⟨.completed ⟨st'.total, st'.new, st'.skipped, st'.failed⟩,
         if dryRun then store else st'.store,
         st'.ops ++ if dryRun then [] else [.commit, .close]⟩ ∧
      st'.total = (metasInRange catalog startDate endDate).length ∧
      st'.new + st'.skipped + st'.failed = st'.total := by
  obtain ⟨st', hloop, ht, hc⟩ := runLoop_completes env dryRun
    (metasInRange catalog startDate endDate)
    ⟨0, 0, 0, 0, store, if dryRun then [] else [DbOp.connect]⟩ hsafe
  refine ⟨st', hloop, ?_, by simpa using ht, ?_⟩
  · unfold run
    rw [if_neg (by simp [hauth]), if_neg (by simp [hcat]),
      if_neg (by simpa [List.isEmpty_iff] using hne)]
    simp only [hloop]
  · rw [hc, ht]
    simp

theorem filter_map_getText (l : List Node) :
    ((l.map getTextStripN).filter (fun s => s != "")) =
    ((l.filter (fun p => getTextStripN p != "")).map getTextStripN) := by
  induction l with
  | nil => rfl
  | cons c r ih =>
      by_cases h : (getTextStripN c != "") = true
      · simp [List.filter_cons, h, ih]
      · simp only [List.map_cons, List.filter_cons, h, ih]
        simp at h
        simp [h]

/-- C6 (amended): for every body container, plain-text extraction is
computed from the paragraph elements remaining after ruby-text removal:
when at least one remains, it equals the stripped texts of those
paragraphs whose stripped text is non-empty, joined by the newline
separator; when none remains, it equals stripping all tags from the
ruby-stripped container.  [The original claim joined the stripped text
of *every* paragraph; the code omits paragraphs whose stripped text is
empty — see the counterexample.] -/
theorem extract_text_paragraph_spec (element : Node) :
    (pElemsL (stripRTL [element]) ≠ [] →
      extract_text_without_ruby element =
        String.intercalate "\n"
          (((pElemsL (stripRTL [element])).filter
              (fun p => getTextStripN p != "")).map getTextStripN)) ∧
    (pElemsL (stripRTL [element]) = [] →
      extract_text_without_ruby element = getTextStripL (stripRTL [element])) := by
  constructor
  · intro h
    have hne : ¬ (pElemsL (stripRTL [element])).isEmpty = true := by
      simpa [List.isEmpty_iff] using h
    simp only [extract_text_without_ruby]
    rw [if_neg hne, filter_map_getText]
  · intro h
    simp [extract_text_without_ruby, h]

/-- C6 witness: a container with one paragraph `" x "` extracts to the
stripped text `"x"`. -/
theorem extract_text_paragraph_spec_witness :
    extract_text_without_ruby
      (Node.elem "div" [] [Node.elem "p" [] [Node.text " x "]]) = "x" := by
  have hne : pElemsL (stripRTL [Node.elem "div" [] [Node.elem "p" [] [Node.text " x "]]])
      = [Node.elem "p" [] [Node.text " x "]] := rfl
  have H := (extract_text_paragraph_spec
    (Node.elem "div" [] [Node.elem "p" [] [Node.text " x "]])).1
    (by rw [hne]; simp)
  rw [H]
  rfl

/-- C6 counterexample: a container with paragraphs `"a"`, `""`, `"b"`:
the code drops the empty paragraph and extracts `"a\nb"`, while the
claim's join of each paragraph's stripped text is `"a\n\nb"`. -/
theorem extract_text_empty_paragraph_cex :
    extract_text_without_ruby
      (Node.elem "div" [] [Node.elem "p" [] [Node.text "a"], Node.elem "p" [] [],
        Node.elem "p" [] [Node.text "b"]]) = "a\nb" ∧
    specParagraphJoin
      (Node.elem "div" [] [Node.elem "p" [] [Node.text "a"], Node.elem "p" [] [],
        Node.elem "p" [] [Node.text "b"]]) = "a\n\nb" ∧
    extract_text_without_ruby
      (Node.elem "div" [] [Node.elem "p" [] [Node.text "a"], Node.elem "p" [] [],
        Node.elem "p" [] [Node.text "b"]]) ≠
      specParagraphJoin
        (Node.elem "div" [] [Node.elem "p" [] [Node.text "a"], Node.elem "p" [] [],
          Node.elem "p" [] [Node.text "b"]]) :=
  ⟨rfl, rfl, by decide⟩

theorem extract_doc_stripRT (l : List Node) :
    extract_text_without_ruby_doc (stripRTL l) = extract_text_without_ruby_doc l := by
  simp only [extract_text_without_ruby_doc, stripRTL_idem]

/-- C5: for every fetched article body, the plain-text variant
(`body_without_html`) contains none of the ruby-text content — formally,
it coincides with the extraction performed on the body with every `rt`
subtree already erased — while the annotated HTML variant (`body`) of
the same record retains all of it: every text fragment lying under an
`rt` element occurs (entity-escaped) contiguously in the stored body
markup. -/
theorem body_ruby_spec (env : Env) (id : String) (meta : ArticleMeta) (b : Node)
    (rec : ArticleRecord)
    (hfind : findByIdL "js-article-body" (env.pageDoc id) = some b)
    (hparse : parse_article_html env id meta = .ok (some rec)) :
    rec.body_without_html =
      extract_text_without_ruby_doc (stripRTL [removeHrefs b]) ∧
    ∀ s ∈ rtTextsN b, appearsIn (escapeMin s.data) rec.body.data := by
  have hfields : rec.body = String.mk (serializeN (removeHrefs b)) ∧
      rec.body_without_html = extract_text_without_ruby (removeHrefs b) := by
    unfold parse_article_html at hparse
    by_cases hst : env.pageStatus id ≠ 200
    · rw [if_pos hst] at hparse; exact absurd hparse (by simp)
    · rw [if_neg hst, hfind] at hparse
      simp only at hparse
      cases hdt : parse_nhk_datetime meta.news_prearranged_time with
      | error e => rw [hdt] at hparse; exact absurd hparse (by simp)
      | ok p =>
          rw [hdt] at hparse
          have h2 := Option.some.inj (Except.ok.inj hparse)
          rw [← h2]
          exact ⟨rfl, rfl⟩
  obtain ⟨hbody, hbwh⟩ := hfields
  constructor
  · rw [hbwh]
    have h3 : extract_text_without_ruby (removeHrefs b) =
        extract_text_without_ruby_doc [removeHrefs b] := rfl
    rw [h3, extract_doc_stripRT]
  · intro s hs
    rw [hbody]
    have hs2 : s ∈ textFragsN (removeHrefs b) := by
      rw [textFrags_removeHrefs]
      exact rtTexts_sub_textFragsN b s hs
    exact textFrag_in_serializeN (removeHrefs b) s hs2

/-- C5 witness: in the concrete environment the production of the
record succeeds, its plain text ignores the erased ruby reading and its
annotated body retains the reading `かん`. -/
theorem body_ruby_spec_witness :
    recC5.body_without_html =
      extract_text_without_ruby_doc (stripRTL [removeHrefs rubyBody]) ∧
    appearsIn (escapeMin "かん".data) recC5.body.data := by
  have H := body_ruby_spec envC5 "k10012345" metaC5 rubyBody recC5 rfl rfl
  refine ⟨H.1, H.2 "かん" ?_⟩
  have h : rtTextsN rubyBody = ["かん"] := rfl
  rw [h]
  simp

/-- C2 (amended): when the requested date range matches no catalog
dates, the run terminates before the per-article loop — without
connecting to the database and without printing the summary — and the
process exits with status ZERO (plain `return` from `main`), not
non-zero as originally claimed; otherwise (assuming no uncaught
per-article exception) the loop completes, the process exits with
status zero and prints the summary of total, inserted, skipped and
failed counts. -/
theorem run_exit_spec (env : Env) (catalog : List (String × List ArticleMeta))
    (startDate endDate : String) (dryRun : Bool) (store : List ArticleRecord)
    (hauth : env.authStatus = 200) (hcat : env.catalogStatus = 200) :
    (targetDates catalog startDate endDate = [] →
      run env catalog startDate endDate dryRun store = ⟨.noDates, store, []⟩ ∧
      exitCode (run env catalog startDate endDate dryRun store).outcome = 0 ∧
      summaryOf (run env catalog startDate endDate dryRun store).outcome = none) ∧
    (targetDates catalog startDate endDate ≠ [] →
      (∀ m ∈ metasInRange catalog startDate endDate,
        parse_article_html env m.news_id m ≠ .error ()) →
      ∃ s, (run env catalog startDate endDate dryRun store).outcome = .completed s ∧
        exitCode (run env catalog startDate endDate dryRun store).outcome = 0 ∧
        summaryOf (run env catalog startDate endDate dryRun store).outcome = some s ∧
        s.total = (metasInRange catalog startDate endDate).length ∧
        s.new + s.skipped + s.failed = s.total) := by
  constructor
  · intro hempty
    have hrun := run_noDates_eq env catalog startDate endDate dryRun store
      hauth hcat hempty
    exact ⟨hrun, by rw [hrun]; rfl, by rw [hrun]; rfl⟩
  · intro hne hsafe
    obtain ⟨st', _, hrun, ht, hc⟩ := run_completes_of_safe env catalog startDate
      endDate dryRun store hauth hcat hne hsafe
    exact ⟨⟨st'.total, st'.new, st'.skipped, st'.failed⟩, by rw [hrun],
      by rw [hrun]; rfl, by rw [hrun]; rfl, ht, hc⟩

/-- C2 counterexample: with a catalog whose only date lies outside the
requested range, the run terminates before the per-article loop — but
`main` just `return`s (line 283), so the process exit status is 0,
contradicting the claimed non-zero exit. -/
theorem run_no_dates_exit_zero_cex :
    (run envNoDates [("2025-01-01", [])] "2026-01-01" "2026-12-31"
      false []).outcome = .noDates ∧
    exitCode (run envNoDates [("2025-01-01", [])] "2026-01-01" "2026-12-31"
      false []).outcome = 0 :=
  ⟨rfl, rfl⟩

/-- C2 witness: the no-dates case exits 0 without a summary, and a
one-article run completes with the printed four-count summary. -/
theorem run_exit_spec_witness :
    run envNoDates [("2025-01-01", [])] "2026-01-01" "2026-12-31" false [] =
      ⟨.noDates, [], []⟩ ∧
    (∃ s, (run envC5 catC1 "2025-01-01" "2025-12-31" false []).outcome =
        .completed s ∧
      exitCode (run envC5 catC1 "2025-01-01" "2025-12-31" false []).outcome = 0 ∧
      summaryOf (run envC5 catC1 "2025-01-01" "2025-12-31" false []).outcome =
        some s ∧
      s.total = (metasInRange catC1 "2025-01-01" "2025-12-31").length ∧
      s.new + s.skipped + s.failed = s.total) := by
  have H1 := run_exit_spec envNoDates [("2025-01-01", [])] "2026-01-01"
    "2026-12-31" false [] rfl rfl
  have H2 := run_exit_spec envC5 catC1 "2025-01-01" "2025-12-31" false [] rfl rfl
  refine ⟨(H1.1 rfl).1, H2.2 (by decide) ?_⟩
  intro m hm
  have hm' : m = metaC5 := by
    have : metasInRange catC1 "2025-01-01" "2025-12-31" = [metaC5] := rfl
    rw [this] at hm
    simpa using hm
  subst hm'
  intro hcon
  have : parse_article_html envC5 metaC5.news_id metaC5 = .ok (some recC5) := rfl
  rw [this] at hcon
  exact absurd hcon (by simp)

/-- C7: a non-success page status or a missing body container makes the
fetch-and-normalize step return null; such an article is counted as
failed (store and counters otherwise untouched) and the loop moves on;
and no per-article failure moves the whole run to a failed state: with
no uncaught exception the run always reaches the completed summary, in
which every processed article is accounted for as new, skipped or
failed. -/
theorem per_article_failure_recoverable (env : Env) :
    (∀ (id : String) (meta : ArticleMeta),
      env.pageStatus id ≠ 200 ∨ findByIdL "js-article-body" (env.pageDoc id) = none →
      parse_article_html env id meta = .ok none) ∧
    (∀ (st : LoopState) (meta : ArticleMeta),
      article_exists st.store meta.news_id = false →
      parse_article_html env meta.news_id meta = .ok none →
      loopStep env false st meta =
        .ok { st with total := st.total + 1, failed := st.failed + 1,
                      ops := st.ops ++ [DbOp.existsCheck meta.news_id] }) ∧
    (∀ (catalog : List (String × List ArticleMeta)) (startDate endDate : String)
        (dryRun : Bool) (store : List ArticleRecord),
      env.authStatus = 200 → env.catalogStatus = 200 →
      targetDates catalog startDate endDate ≠ [] →
      (∀ m ∈ metasInRange catalog startDate endDate,
        parse_article_html env m.news_id m ≠ .error ()) →
      ∃ s, (run env catalog startDate endDate dryRun store).outcome = .completed s ∧
        s.new + s.skipped + s.failed = s.total) := by
  refine ⟨?_, ?_, ?_⟩
  · intro id meta h
    unfold parse_article_html
    by_cases hst : env.pageStatus id ≠ 200
    · rw [if_pos hst]
    · rw [if_neg hst]
      rcases h with h | h
      · exact absurd h hst
      · rw [h]
  · intro st meta hex hparse
    rw [loopStep_wet, if_neg (by simp [hex]), hparse]
  · intro catalog startDate endDate dryRun store hauth hcat hne hsafe
    obtain ⟨st', _, hrun, _, hc⟩ := run_completes_of_safe env catalog startDate
      endDate dryRun store hauth hcat hne hsafe
    exact ⟨⟨st'.total, st'.new, st'.skipped, st'.failed⟩, by rw [hrun], hc⟩

/-- C7 witness: in an environment where the only article's page returns
404, the parse yields null and the run still completes, counting the
article as failed. -/
theorem per_article_failure_recoverable_witness :
    parse_article_html env404 "k10012345" metaC5 = .ok none ∧
    ∃ s, (run env404 catC1 "2025-01-01" "2025-12-31" false []).outcome =
      .completed s ∧ s.new + s.skipped + s.failed = s.total := by
  have H := per_article_failure_recoverable env404
  refine ⟨H.1 "k10012345" metaC5 (Or.inl (by decide)), ?_⟩
  refine H.2.2 catC1 "2025-01-01" "2025-12-31" false [] rfl rfl (by decide) ?_
  intro m hm
  have hm' : m = metaC5 := by
    have h1 : metasInRange catC1 "2025-01-01" "2025-12-31" = [metaC5] := rfl
    rw [h1] at hm
    simpa using hm
  subst hm'
  intro hcon
  have h2 : parse_article_html env404 metaC5.news_id metaC5 = .ok none := rfl
  rw [h2] at hcon
  exact absurd hcon (by simp)

/-- C8: with the dry-run flag set the pipeline issues no operation at
all against the persistence store — it neither connects, nor queries,
nor writes — and the store after the run equals the store before,
regardless of environment, catalog, range or how many new articles are
found. -/
theorem dry_run_no_writes (env : Env) (catalog : List (String × List ArticleMeta))
    (startDate endDate : String) (store : List ArticleRecord) :
    (run env catalog startDate endDate true store).finalStore = store ∧
    (run env catalog startDate endDate true store).dbOps = [] := by
  unfold run
  split
  · exact ⟨rfl, rfl⟩
  split
  · exact ⟨rfl, rfl⟩
  split
  · exact ⟨rfl, rfl⟩
  simp only [runLoop_dry_char2]
  cases hd : dryRunLoopResult env (metasInRange catalog startDate endDate) 0 0 0 with
  | ok tnf =>
      obtain ⟨t, n, f⟩ := tnf
      exact ⟨rfl, rfl⟩
  | error tnf =>
      obtain ⟨t, n, f⟩ := tnf
      exact ⟨rfl, rfl⟩

/-- C10 (implicit): in dry-run mode the duplicate-existence check is
bypassed entirely: the outcome is independent of the store contents,
nothing is ever counted as skipped, and every article in range whose
fetch-and-parse succeeds is counted as new ("would insert") even when a
record with the same `news_id` is already present — so dry-run counts
can differ from a real run's counts over the same range. -/
theorem dry_run_bypasses_dedup (env : Env)
    (catalog : List (String × List ArticleMeta)) (startDate endDate : String)
    (store store' : List ArticleRecord) :
    (run env catalog startDate endDate true store).outcome =
      (run env catalog startDate endDate true store').outcome ∧
    (∀ s, (run env catalog startDate endDate true store).outcome = .completed s →
      s.skipped = 0 ∧ s.total = (metasInRange catalog startDate endDate).length ∧
      s.new = (metasInRange catalog startDate endDate).countP (parsedOk env)) := by
  unfold run
  split
  · exact ⟨rfl, fun s hs => absurd hs (by simp)⟩
  split
  · exact ⟨rfl, fun s hs => absurd hs (by simp)⟩
  split
  · exact ⟨rfl, fun s hs => absurd hs (by simp)⟩
  simp only [runLoop_dry_char2]
  cases hd : dryRunLoopResult env (metasInRange catalog startDate endDate) 0 0 0 with
  | ok tnf =>
      obtain ⟨t, n, f⟩ := tnf
      refine ⟨rfl, ?_⟩
      intro s hs
      have hs' : Summary.mk t n 0 f = s := by
        simpa using hs
      obtain ⟨h1, h2, h3⟩ :=
        dryRunLoopResult_ok env (metasInRange catalog startDate endDate)
          0 0 0 t n f hd
      rw [← hs']
      exact ⟨rfl, by simpa using h1, by simpa using h2⟩
  | error tnf =>
      obtain ⟨t, n, f⟩ := tnf
      exact ⟨rfl, fun s hs => absurd hs (by simp)⟩

theorem run_wet_eq (env : Env) (catalog : List (String × List ArticleMeta))
    (startDate endDate : String) (store : List ArticleRecord)
    (h1 : ¬env.authStatus ≠ 200) (h2 : ¬env.catalogStatus ≠ 200)
    (h3 : ¬(targetDates catalog startDate endDate).isEmpty = true) :
    run env catalog startDate endDate false store =
      match runLoop env false ⟨0, 0, 0, 0, store, [DbOp.connect]⟩
          (metasInRange catalog startDate endDate) with
      | .error st => ⟨.crashed, store, st.ops ++ [DbOp.close]⟩
      | .ok st => ⟨.completed ⟨st.total, st.new, st.skipped, st.failed⟩,
                   st.store, st.ops ++ [DbOp.commit, DbOp.close]⟩ := by
  unfold run
  rw [if_neg h1, if_neg h2, if_neg h3]
  have e1 : (if (false : Bool) then ([] : List DbOp) else [DbOp.connect]) =
      [DbOp.connect] := rfl
  simp only [e1]
  cases hloop : runLoop env false ⟨0, 0, 0, 0, store, [DbOp.connect]⟩
      (metasInRange catalog startDate endDate) with
  | error st => simp only [hloop]; rfl
  | ok st => simp only [hloop]; rfl

/-- C1: `news_id` is insert-if-absent.  In a real (non-dry) run, every
record added to the store carries an identifier that was absent from
the store before the run; global uniqueness of `news_id` is preserved;
and re-running the pipeline over the same date range against the
resulting store inserts nothing: the store is unchanged and, when the
second run completes, its summary reports zero new inserts. -/
theorem run_insert_if_absent (env : Env)
    (catalog : List (String × List ArticleMeta)) (startDate endDate : String)
    (store : List ArticleRecord) :
    (∃ tail, (run env catalog startDate endDate false store).finalStore =
        store ++ tail ∧ ∀ r ∈ tail, article_exists store r.news_id = false) ∧
    ((storeIds store).Nodup →
      (storeIds (run env catalog startDate endDate false store).finalStore).Nodup) ∧
    (run env catalog startDate endDate false
        (run env catalog startDate endDate false store).finalStore).finalStore =
      (run env catalog startDate endDate false store).finalStore ∧
    (∀ s, (run env catalog startDate endDate false
        (run env catalog startDate endDate false store).finalStore).outcome =
          .completed s → s.new = 0) := by
  by_cases h1 : env.authStatus ≠ 200
  · have hr : ∀ st0 : List ArticleRecord,
        run env catalog startDate endDate false st0 = ⟨.fatal, st0, []⟩ := by
      intro st0; unfold run; rw [if_pos h1]
    simp only [hr]
    exact ⟨⟨[], by simp, by simp⟩, fun h => h, by simp,
      fun s hs => absurd hs (by simp)⟩
  by_cases h2 : env.catalogStatus ≠ 200
  · have hr : ∀ st0 : List ArticleRecord,
        run env catalog startDate endDate false st0 = ⟨.fatal, st0, []⟩ := by
      intro st0; unfold run; rw [if_neg h1, if_pos h2]
    simp only [hr]
    exact ⟨⟨[], by simp, by simp⟩, fun h => h, by simp,
      fun s hs => absurd hs (by simp)⟩
  by_cases h3 : (targetDates catalog startDate endDate).isEmpty = true
  · have hr : ∀ st0 : List ArticleRecord,
        run env catalog startDate endDate false st0 = ⟨.noDates, st0, []⟩ := by
      intro st0; unfold run; rw [if_neg h1, if_neg h2, if_pos h3]
    simp only [hr]
    exact ⟨⟨[], by simp, by simp⟩, fun h => h, by simp,
      fun s hs => absurd hs (by simp)⟩
  · have hrun1 := run_wet_eq env catalog startDate endDate store h1 h2 h3
    cases hloop : runLoop env false ⟨0, 0, 0, 0, store, [DbOp.connect]⟩
        (metasInRange catalog startDate endDate) with
    | error ste =>
        have hR1 : run env catalog startDate endDate false store =
            ⟨.crashed, store, ste.ops ++ [DbOp.close]⟩ := by
          rw [hrun1, hloop]
        simp only [hR1]
        exact ⟨⟨[], by simp, by simp⟩, fun h => h, by simp,
          fun s hs => absurd hs (by simp)⟩
    | ok st1 =>
        have hR1 : run env catalog startDate endDate false store =
            ⟨.completed ⟨st1.total, st1.new, st1.skipped, st1.failed⟩, st1.store,
             st1.ops ++ [DbOp.commit, DbOp.close]⟩ := by
          rw [hrun1, hloop]
        have hext := runLoop_store_extends env false
          (metasInRange catalog startDate endDate)
          ⟨0, 0, 0, 0, store, [DbOp.connect]⟩
        rw [hloop] at hext
        simp only [resultStore] at hext
        have hcov := runLoop_covers env (metasInRange catalog startDate endDate)
          ⟨0, 0, 0, 0, store, [DbOp.connect]⟩ st1 hloop
        obtain ⟨st2, hloop2, hst2, hnew2⟩ := runLoop_skips_all env
          (metasInRange catalog startDate endDate)
          ⟨0, 0, 0, 0, st1.store, [DbOp.connect]⟩
          (fun m hm hn => by simpa using hcov m hm hn)
        have hrun2 := run_wet_eq env catalog startDate endDate st1.store h1 h2 h3
        have hR2 : run env catalog startDate endDate false st1.store =
            ⟨.completed ⟨st2.total, st2.new, st2.skipped, st2.failed⟩, st2.store,
             st2.ops ++ [DbOp.commit, DbOp.close]⟩ := by
          rw [hrun2, hloop2]
        refine ⟨?_, ?_, ?_, ?_⟩
        · obtain ⟨tail, he, hf⟩ := hext
          refine ⟨tail, ?_, fun r hr => by simpa using hf r hr⟩
          rw [hR1]
          simpa using he
        · intro hn
          have hnd := runLoop_nodup env false
            (metasInRange catalog startDate endDate)
            ⟨0, 0, 0, 0, store, [DbOp.connect]⟩ (by simpa using hn)
          rw [hloop] at hnd
          simp only [resultStore] at hnd
          rw [hR1]
          simpa using hnd
        · simp only [hR1]
          rw [hR2]
          simpa using hst2
        · intro s hs
          simp only [hR1] at hs
          rw [hR2] at hs
          have hseq : Summary.mk st2.total st2.new st2.skipped st2.failed = s := by
            simpa using hs
          rw [← hseq]
          simpa using hnew2

/-- C1 witness: one article, real run from an empty store, then a
re-run over the same range: the article is skipped, zero new inserts,
store unchanged, uniqueness intact. -/
theorem run_insert_if_absent_witness :
    (run envC5 catC1 "2025-01-01" "2025-12-31" false
        (run envC5 catC1 "2025-01-01" "2025-12-31" false []).finalStore).outcome =
      .completed ⟨1, 0, 1, 0⟩ ∧
    (Summary.mk 1 0 1 0).new = 0 ∧
    (run envC5 catC1 "2025-01-01" "2025-12-31" false
        (run envC5 catC1 "2025-01-01" "2025-12-31" false []).finalStore).finalStore =
      (run envC5 catC1 "2025-01-01" "2025-12-31" false []).finalStore ∧
    (storeIds (run envC5 catC1 "2025-01-01" "2025-12-31" false []).finalStore).Nodup := by
  have H := run_insert_if_absent envC5 catC1 "2025-01-01" "2025-12-31" []
  exact ⟨rfl, H.2.2.2 ⟨1, 0, 1, 0⟩ rfl, H.2.2.1, H.2.1 (by simp [storeIds])⟩

/-- C10 witness: with the one fetched article already present in the
store, a dry run still reports it as new (`total=1, new=1, skipped=0`),
and its outcome equals the dry run against an empty store. -/
theorem dry_run_bypasses_dedup_witness :
    (run envC5 catC1 "2025-01-01" "2025-12-31" true [recC5]).outcome =
      (run envC5 catC1 "2025-01-01" "2025-12-31" true []).outcome ∧
    (Summary.mk 1 1 0 0).skipped = 0 ∧
    (Summary.mk 1 1 0 0).total =
      (metasInRange catC1 "2025-01-01" "2025-12-31").length ∧
    (Summary.mk 1 1 0 0).new =
      (metasInRange catC1 "2025-01-01" "2025-12-31").countP (parsedOk envC5) := by
  have H := dry_run_bypasses_dedup envC5 catC1 "2025-01-01" "2025-12-31" [recC5] []
  exact ⟨H.1, H.2 ⟨1, 1, 0, 0⟩ rfl⟩

